import Mathlib

/-!
Shallow embedding of the core of `telegram-media-fetcher`:
the job queue (`app/queue.py`), the selection session store (`app/state.py`),
the progress-aggregation hook (`app/downloader.py`), the progress reporter
(`app/telegram/worker.py`), the worker loop's cleanup step
(`app/telegram/worker_loop.py`) and the selection-owner validation
(`app/telegram/handlers.py`), together with theorems settling the
specification's claims about them.

Python floats that carry byte counts and percentages are modelled as `ℚ`;
Python `int(x)` is truncation toward zero; Python dicts keyed by strings are
insertion-ordered association lists.
-/

namespace MediaFetcher

/-- Python `int(q)`: truncation toward zero. -/
def pyInt (q : ℚ) : Int := if 0 ≤ q then ⌊q⌋ else ⌈q⌉

/-- Python `x // y` on ints (floor division). -/
def pyFloorDiv (a b : Int) : Int := Int.fdiv a b

/-- Python `x % y` on ints (remainder with the divisor's sign). -/
def pyMod (a b : Int) : Int := Int.fmod a b

/-! ## Job queue (`app/queue.py`) -/

/-- `DownloadJob` dataclass from `app/queue.py`. -/
structure DownloadJob where
  chat_id : Int
  request_url : String
  urls : List String
  max_height : Option Int
  playlist_items : Option String
  progress_message_id : Int
deriving DecidableEq, Repr

/-- `DownloadQueue.enqueue`: append the job, then report `len(self._items)`
as the 1-based position.  Returns the new item list and the position. -/
def enqueue (items : List DownloadJob) (j : DownloadJob) : List DownloadJob × Nat :=
  let items2 := items ++ [j]
  (items2, items2.length)

/-- One operation against the queue: a producer's `enqueue` or the single
consumer's `get` (dequeue). -/
inductive QueueOp where
  | enq (j : DownloadJob)
  | deq
deriving DecidableEq, Repr

/-- One queue operation applied to the waiting list.  `enqueue` appends at the
tail; `get` pops the head (`self._items.pop(0)`).  A `get` on an empty queue
suspends in the source, so in a completed trace it simply observes nothing.
Returns the new list and the (0- or 1-element) list of jobs handed out. -/
def queueStep (items : List DownloadJob) (op : QueueOp) : List DownloadJob × List DownloadJob :=
  match op with
  | .enq j => (items ++ [j], [])
  | .deq =>
    match items with
    | [] => ([], [])
    | j :: rest => (rest, [j])

/-- Run a trace of queue operations from a starting list; returns the final
waiting list and the concatenated sequence of dequeued jobs. -/
def queueRun (items : List DownloadJob) : List QueueOp → List DownloadJob × List DownloadJob
  | [] => (items, [])
  | op :: ops =>
    let st := queueStep items op
    let rest := queueRun st.1 ops
    (rest.1, st.2 ++ rest.2)

/-- The jobs enqueued along a trace, in order. -/
def enqueuedOf : List QueueOp → List DownloadJob
  | [] => []
  | .enq j :: ops => j :: enqueuedOf ops
  | .deq :: ops => enqueuedOf ops

/-! ## Selection session store (`app/state.py`)

Python `dict[str, V]` is modelled as an insertion-ordered association list
with unique keys reachable through these operations. -/

/-- Python `d.get(k)`. -/
def dictGet {α : Type} (m : List (String × α)) (k : String) : Option α :=
  (m.find? (fun p => p.1 == k)).map (·.2)

/-- Python `d.pop(k, None)`'s effect on the dict: drop the entry for `k`. -/
def dictRemove {α : Type} (m : List (String × α)) (k : String) : List (String × α) :=
  m.filter (fun p => !(p.1 == k))

/-- Python `d[k] = v`: update in place when the key exists, else append. -/
def dictSet {α : Type} (m : List (String × α)) (k : String) (v : α) : List (String × α) :=
  if m.any (fun p => p.1 == k) then
    m.map (fun p => if p.1 == k then (k, v) else p)
  else m ++ [(k, v)]

/-- `PlaylistEntry` dataclass from `app/downloader.py`. -/
structure PlaylistEntry where
  index : Int
  title : String
  url : String
  duration_sec : Option Int
deriving DecidableEq, Repr

/-- `PendingSelection` dataclass from `app/state.py`; `created_at` is the
`time.time()` timestamp recorded at construction. -/
structure PendingSelection where
  chat_id : Int
  user_id : Int
  url : String
  playlist_entries : List PlaylistEntry
  selected_indices : List Int
  heights : List Int
  selected_height : Option Int
  created_at : ℚ
deriving DecidableEq, Repr

/-- `InMemoryState` from `app/state.py`: token-keyed pending selections plus
the configured TTL in seconds. -/
structure InMemoryState where
  pending : List (String × PendingSelection)
  ttl_sec : ℚ
deriving DecidableEq, Repr

/-- `InMemoryState.get`, with the wall clock passed explicitly: lazy expiry
purges an entry older than the TTL as a side effect and reports absence. -/
def InMemoryState.get (st : InMemoryState) (now : ℚ) (token : String) :
    Option PendingSelection × InMemoryState :=
  match dictGet st.pending token with
  | none => (none, st)
  | some p =>
    if now - p.created_at > st.ttl_sec then
      (none, { st with pending := dictRemove st.pending token })
    else (some p, st)

/-- `InMemoryState.pop` (the spec's `take`): like `get` but also removes the
entry on success; `self.pending.pop(token, None)` returns the entry found by
the initial lookup. -/
def InMemoryState.pop (st : InMemoryState) (now : ℚ) (token : String) :
    Option PendingSelection × InMemoryState :=
  match dictGet st.pending token with
  | none => (none, st)
  | some p =>
    if now - p.created_at > st.ttl_sec then
      (none, { st with pending := dictRemove st.pending token })
    else
      (some p, { st with pending := dictRemove st.pending token })

/-! ## Progress aggregation (`download_urls` in `app/downloader.py`)

The closure state shared by `hook`, `_emit_processing` and
`_emit_download_percent`, and the sequence of `progress_cb` calls they make.
-/

/-- One raw yt-dlp progress event as consumed by `hook`.  Numeric fields are
validated at the boundary: an absent or non-numeric Python value becomes
`none`; `percent_str` is the parsed `_percent_str` when parseable. -/
structure RawEvent where
  status : String
  filename : Option String
  downloaded_bytes : Option ℚ
  total_bytes : Option ℚ
  total_bytes_estimate : Option ℚ
  percent_str : Option ℚ
deriving DecidableEq, Repr

/-- `progress.get("total_bytes") or progress.get("total_bytes_estimate")`:
Python `or` falls through on `None` and on a zero float. -/
def rawTotal (e : RawEvent) : Option ℚ :=
  match e.total_bytes with
  | some t => if t = 0 then e.total_bytes_estimate else some t
  | none => e.total_bytes_estimate

/-- The mutable closure state of `download_urls`: `last_percent["v"]`,
`processing_announced["v"]`, `file_downloaded` and `file_total`. -/
structure HookState where
  last_percent : Int
  processing_announced : Bool
  file_downloaded : List (String × ℚ)
  file_total : List (String × ℚ)
deriving DecidableEq, Repr

/-- The closure state at the start of `download_urls`. -/
def initHookState : HookState := ⟨-1, false, [], []⟩

/-- One call `progress_cb(phase, percent)` made by the hook. -/
inductive Emit where
  | processing
  | download (pi : Int)
deriving DecidableEq, Repr

/-- `_emit_processing`: announce the processing phase once, latched. -/
def emit_processing (s : HookState) : HookState × List Emit :=
  if s.processing_announced then (s, [])
  else ({ s with processing_announced := true }, [.processing])

/-- `_emit_download_percent(p)`: clamp into `[0, 100]`, truncate to int,
and emit only when the integer differs from the last emitted one. -/
def emit_download_percent (s : HookState) (p : ℚ) : HookState × List Emit :=
  let pi : Int := pyInt (max 0 (min 100 p))
  if pi = s.last_percent then (s, [])
  else ({ s with last_percent := pi }, [.download pi])

/-- The per-stream key: `filename` when a non-empty string, else
`"__unknown__"`. -/
def eventKey (e : RawEvent) : String :=
  match e.filename with
  | some f => if f = "" then "__unknown__" else f
  | none => "__unknown__"

/-- The `file_downloaded` / `file_total` updates a `"downloading"` event
performs before aggregation. -/
def downloadingUpdate (s : HookState) (e : RawEvent) : HookState :=
  let key := eventKey e
  let fd :=
    match e.downloaded_bytes with
    | some d => if d ≥ 0 then dictSet s.file_downloaded key d else s.file_downloaded
    | none => s.file_downloaded
  let ft :=
    match rawTotal e with
    | some t => if t > 0 then dictSet s.file_total key t else s.file_total
    | none => s.file_total
  { s with file_downloaded := fd, file_total := ft }

/-- The body of `hook` for a `"downloading"` event: update the byte maps,
then aggregate across streams when some total is known, else fall back to the
reported coarse percent with the non-regression guard. -/
def hookDownloading (s : HookState) (e : RawEvent) : HookState × List Emit :=
  let s2 := downloadingUpdate s e
  let totals := (s2.file_total.map (·.2)).filter (fun t => decide (t > 0))
  if totals ≠ [] then
    let sum_total : ℚ := totals.sum
    let sum_done : ℚ :=
      ((s2.file_total.filter (fun kt => !decide (kt.2 ≤ 0))).map
        (fun kt =>
          let d0 := (dictGet s2.file_downloaded kt.1).getD 0
          let d1 := if d0 < 0 then 0 else d0
          if d1 > kt.2 then kt.2 else d1)).sum
    emit_download_percent s2 (100 * sum_done / sum_total)
  else
    match e.percent_str with
    | some p =>
      if p < (s2.last_percent : ℚ) then (s2, [])
      else emit_download_percent s2 p
    | none => (s2, [])

/-- `hook(progress)`: one raw event applied to the closure state; returns the
updated state and the `progress_cb` calls made, in order. -/
def hook (s : HookState) (e : RawEvent) : HookState × List Emit :=
  if e.status = "postprocessing" ∨ e.status = "processing" then
    emit_processing s
  else if e.status = "finished" then
    match rawTotal e with
    | some t =>
      if t > 0 then
        ({ s with file_total := dictSet s.file_total (eventKey e) t,
                  file_downloaded := dictSet s.file_downloaded (eventKey e) t }, [])
      else (s, [])
    | none => (s, [])
  else if e.status ≠ "downloading" then (s, [])
  else hookDownloading s e

/-- Fold `hook` over an event sequence, collecting all emissions. -/
def hookRunFrom (s : HookState) : List RawEvent → HookState × List Emit
  | [] => (s, [])
  | e :: evs =>
    let st := hook s e
    let rest := hookRunFrom st.1 evs
    (rest.1, st.2 ++ rest.2)

/-- All `progress_cb` calls a job's raw event sequence produces. -/
def hookEmits (evs : List RawEvent) : List Emit := (hookRunFrom initHookState evs).2

/-- The integer percents of the download emissions, in order. -/
def downloadPercents (l : List Emit) : List Int :=
  l.filterMap (fun e => match e with | .download p => some p | .processing => none)

/-- A `"downloading"` event with a byte count and a known total, as yt-dlp
reports for one stream. -/
def evDownloading (name : String) (d t : ℚ) : RawEvent :=
  ⟨"downloading", some name, some d, some t, none, none⟩

/-- Whether a raw event carries a processing/postprocessing status
(`status in {"postprocessing", "processing"}`). -/
def isProcessingEvent (e : RawEvent) : Bool :=
  e.status == "postprocessing" || e.status == "processing"

/-- Modelled from the spec: "aggregate percent = 100 × (sum of per-stream
downloaded, each clamped to its own total) / (sum of per-stream totals)",
summing over the streams with a known (positive) total. -/
def specAggregatePercent (s : HookState) : ℚ :=
  let known := s.file_total.filter (fun kt => decide (0 < kt.2))
  100 * (known.map (fun kt =>
      max 0 (min ((dictGet s.file_downloaded kt.1).getD 0) kt.2))).sum
    / (known.map (·.2)).sum

/-! ## Progress reporter (`progress_updater` in `app/telegram/worker.py`) -/

/-- The loop state of `progress_updater` between iterations. -/
structure ReporterState where
  last_sent_percent : Int
  last_sent_time : ℚ
  phase : String
  last_progress_time : ℚ
  last_seen_percent : Int
deriving DecidableEq, Repr

/-- The reporter state at loop entry: `last_sent_percent = -1`,
`last_sent_time = 0.0`, `phase = "download"`, `last_progress_time =
start_time`, `last_seen_percent = 0`. -/
def initReporterState (start_time : ℚ) : ReporterState :=
  ⟨-1, 0, "download", start_time, 0⟩

/-- One iteration's input: an event arrived before the stall timeout, or the
wait timed out; `now` is the `time.monotonic()` reading on wake-up. -/
inductive ReporterInput where
  | event (new_phase : String) (percent : Option ℚ) (now : ℚ)
  | timeout (now : ℚ)
deriving DecidableEq, Repr

/-- The `f"{stalled_min}:{stalled_sec:02d}"` rendering of a stall duration in
seconds. -/
def fmtStall (stalled : Int) : String :=
  let m := pyFloorDiv stalled 60
  let sec := pyMod stalled 60
  let s2 := toString sec
  toString m ++ ":" ++ (if s2.length < 2 then "0" ++ s2 else s2)

/-- One iteration of the `progress_updater` loop: the new state and the text
handed to `safe_edit_italic` when a render happens. -/
def reporterStep (min_interval : ℚ) (s : ReporterState) (i : ReporterInput) :
    ReporterState × Option String :=
  match i with
  | .event new_phase percent now =>
    let phase := if new_phase ≠ "" then new_phase else s.phase
    if phase ≠ "download" then
      if now - s.last_sent_time < min_interval then
        ({ s with phase := phase }, none)
      else
        ({ s with
            phase := phase
            last_progress_time := now
            last_sent_time := now },
          some "Processing...")
    else
      match percent with
      | none => ({ s with phase := phase }, none)
      | some p =>
        let percent_int := pyInt p
        if percent_int = s.last_sent_percent then
          ({ s with phase := phase }, none)
        else if now - s.last_sent_time < min_interval then
          ({ s with phase := phase }, none)
        else
          ({ s with
              phase := phase
              last_seen_percent := percent_int
              last_progress_time := now
              last_sent_percent := percent_int
              last_sent_time := now },
            some ("Downloading... " ++ toString percent_int ++ "%"))
  | .timeout now =>
    if now - s.last_sent_time < min_interval then (s, none)
    else
      let stalled := pyInt (now - s.last_progress_time)
      let text :=
        if s.phase ≠ "download" then
          "Processing... (no progress for " ++ fmtStall stalled ++ ")"
        else if s.last_seen_percent ≤ 0 then
          "Downloading..."
        else
          "Downloading... " ++ toString s.last_seen_percent ++ "% (no progress for "
            ++ fmtStall stalled ++ ")"
      ({ s with last_sent_time := now }, some text)

/-! ## Worker cleanup and per-job wrap-up (`app/telegram/worker_loop.py`) -/

/-- An absolute filesystem path, as its component list. -/
structure PyPath where
  components : List String
deriving DecidableEq, Repr

/-- `Path.is_relative_to`: the root's components are a prefix of the
path's. -/
def isRelativeTo (p root : PyPath) : Bool :=
  root.components.isPrefixOf p.components

/-- `Path.name`: the final component (`""` for a bare root). -/
def pathName (p : PyPath) : String := p.components.getLast?.getD ""

/-- A Python exception as seen by `_cleanup_session_dir`'s handlers. -/
inductive PyErr where
  | fileNotFound
  | other
deriving DecidableEq, Repr

/-- What one `_cleanup_session_dir` call did. -/
inductive CleanupOutcome where
  | refusedOutsideRoot
  | refusedNonSession
  | removed
  | alreadyGone
  | loggedFailure
deriving DecidableEq, Repr

/-- The `try` body of `_cleanup_session_dir`: resolve both paths, refuse
deletion outside the configured root or of a directory not named
`session-...`, else attempt `shutil.rmtree`.  `resolve` is the filesystem's
path resolution and `rmtree` its fallible removal. -/
def cleanupBody (resolve : PyPath → PyPath) (rmtree : PyPath → Except PyErr Unit)
    (session_dir download_root : PyPath) : Except PyErr CleanupOutcome :=
  let root := resolve download_root
  let sd := resolve session_dir
  if ¬ isRelativeTo sd root then .ok .refusedOutsideRoot
  else if ¬ (pathName sd).startsWith "session-" then .ok .refusedNonSession
  else
    match rmtree sd with
    | .ok _ => .ok .removed
    | .error err => .error err

/-- `_cleanup_session_dir` with its exception flow explicit: the body's
exceptions are caught (`except FileNotFoundError: return` silently, `except
Exception:` logs), so the call itself always returns normally. -/
def cleanupSessionDirRun (resolve : PyPath → PyPath)
    (rmtree : PyPath → Except PyErr Unit)
    (session_dir download_root : PyPath) : Except PyErr CleanupOutcome :=
  match cleanupBody resolve rmtree session_dir download_root with
  | .ok a => .ok a
  | .error .fileNotFound => .ok .alreadyGone
  | .error .other => .ok .loggedFailure

/-- `_cleanup_session_dir` as the total function the worker calls. -/
def cleanupSessionDir (resolve : PyPath → PyPath)
    (rmtree : PyPath → Except PyErr Unit)
    (session_dir download_root : PyPath) : CleanupOutcome :=
  match cleanupSessionDirRun resolve rmtree session_dir download_root with
  | .ok a => a
  | .error _ => .loggedFailure

/-- The generic user-facing failure text the exception handler renders. -/
def cannotDownloadText (request_url : String) : String :=
  "This service cannot download from this URL:\n" ++ request_url
    ++ "\n\nPlease try a different link."

/-- Outcome of one fallible worker step (a raw Telegram edit, session-dir
creation, or a delivery): it returns normally, raises an ordinary
`Exception`, or raises `asyncio.CancelledError`. -/
inductive StepResult where
  | ok
  | exc
  | cancelled
deriving DecidableEq, Repr

/-- Outcome of the offloaded `download_urls` call: a file list (all the body
inspects is whether it is empty), or a raise. -/
inductive AcquireResult where
  | ok (files_nonempty : Bool)
  | exc
  | cancelled
deriving DecidableEq, Repr

/-- How the per-job `try` body of `worker_loop` exits. -/
inductive BodyExit where
  | normal
  | raisedExc
  | raisedCancel
deriving DecidableEq, Repr

/-- What one `worker_loop` iteration leaves behind. -/
structure JobRunResult where
  job_success : Bool
  session_dir_set : Bool
  final_message : Option String
  cleanup_invoked : Bool
  reraised : Bool
deriving DecidableEq, Repr

/-- The per-job `try` body of `worker_loop`, in source order, with each
fallible step's outcome supplied as an oracle: the raw starting
`edit_message_text`, `ensure_session_dir`, the offloaded `download_urls`
call, the raw "file was not found" edit, the deliveries (`send_file`; the
per-file unlink is guarded), and — after `job_success = True` is assigned —
the raw final "Done." edit.  The progress edits in between go through the
swallowing `safe_edit_italic` and cannot raise.  Returns (`job_success`,
whether `session_dir` was assigned, the message the body itself rendered
last, how the body exited). -/
def workerTryBody (start_edit ensure_dir : StepResult) (acquire : AcquireResult)
    (nofiles_edit deliver done_edit : StepResult) :
    Bool × Bool × Option String × BodyExit :=
  match start_edit with
  | .exc => (false, false, none, .raisedExc)
  | .cancelled => (false, false, none, .raisedCancel)
  | .ok =>
    match ensure_dir with
    | .exc => (false, false, none, .raisedExc)
    | .cancelled => (false, false, none, .raisedCancel)
    | .ok =>
      match acquire with
      | .exc => (false, true, none, .raisedExc)
      | .cancelled => (false, true, none, .raisedCancel)
      | .ok files_nonempty =>
        if ¬ files_nonempty then
          match nofiles_edit with
          | .ok => (false, true,
              some "Download finished, but the file was not found.", .normal)
          | .exc => (false, true, none, .raisedExc)
          | .cancelled => (false, true, none, .raisedCancel)
        else
          match deliver with
          | .exc => (false, true, none, .raisedExc)
          | .cancelled => (false, true, none, .raisedCancel)
          | .ok =>
            match done_edit with
            | .ok => (true, true, some "Done.", .normal)
            | .exc => (true, true, none, .raisedExc)
            | .cancelled => (true, true, none, .raisedCancel)

/-- One `worker_loop` iteration around the body: `except CancelledError`
re-raises, `except Exception` renders the generic failure text, and the
`finally` block runs `_cleanup_session_dir` exactly when `job_success` is set
and a session directory exists — the flag's value, not the exit path, is what
gates cleanup. -/
def workerJobRun (start_edit ensure_dir : StepResult) (acquire : AcquireResult)
    (nofiles_edit deliver done_edit : StepResult) (request_url : String) :
    JobRunResult :=
  let r := workerTryBody start_edit ensure_dir acquire nofiles_edit deliver done_edit
  match r.2.2.2 with
  | .normal => ⟨r.1, r.2.1, r.2.2.1, r.1 && r.2.1, false⟩
  | .raisedExc => ⟨r.1, r.2.1, some (cannotDownloadText request_url), r.1 && r.2.1, false⟩
  | .raisedCancel => ⟨r.1, r.2.1, r.2.2.1, r.1 && r.2.1, true⟩

/-! ## Selection-owner validation (`app/telegram/handlers.py`) -/

/-- The originating user of a callback query. -/
structure CallbackUser where
  id : Int
deriving DecidableEq, Repr

/-- The message a callback query is attached to. -/
structure CallbackMessage where
  chat_id : Int
deriving DecidableEq, Repr

/-- The parts of a callback query `_validate_selection_owner` inspects. -/
structure CallbackQuery where
  from_user : Option CallbackUser
  message : Option CallbackMessage
deriving DecidableEq, Repr

/-- `_validate_selection_owner`: reject clicks by users other than the
selection's owner, and clicks from a different chat. -/
def validate_selection_owner (query : Option CallbackQuery)
    (pending : PendingSelection) : Bool :=
  match query with
  | none => false
  | some q =>
    if (match q.from_user with
        | some u => decide (u.id ≠ pending.user_id)
        | none => false) then false
    else
      match q.message with
      | none => false
      | some m => if m.chat_id ≠ pending.chat_id then false else true

/-- The parsed action of a `pl:` callback in `on_playlist_callback`. -/
inductive PlaylistAction where
  | noop
  | selectAll
  | selectNone
  | actionDone
  | page (n : Int)
  | toggle (idx : Int)
deriving DecidableEq, Repr

/-- The effect of `on_playlist_callback` on the stored selection once the
token lookup succeeded: owner validation gates everything, and only the
toggle action mutates the selection, replacing the chosen set by the single
index. -/
def onPlaylistCallbackSelection (q : CallbackQuery) (pending : PendingSelection)
    (a : PlaylistAction) : PendingSelection :=
  if ¬ validate_selection_owner (some q) pending then pending
  else
    match a with
    | .toggle idx => { pending with selected_indices := [idx] }
    | _ => pending

/-! ## Theorems -/

theorem queueRun_fifo_aux (ops : List QueueOp) :
    ∀ items : List DownloadJob,
      items ++ enqueuedOf ops = (queueRun items ops).2 ++ (queueRun items ops).1 := by
  induction ops with
  | nil => intro items; simp [queueRun, enqueuedOf]
  | cons op ops ih =>
    intro items
    cases op with
    | enq j =>
      have h := ih (items ++ [j])
      simp only [queueRun, queueStep, enqueuedOf, List.nil_append]
      calc items ++ j :: enqueuedOf ops = (items ++ [j]) ++ enqueuedOf ops := by simp
        _ = _ := h
    | deq =>
      cases items with
      | nil =>
        have h := ih []
        simpa [queueRun, queueStep, enqueuedOf] using h
      | cons j rest =>
        have h := ih rest
        simp only [queueRun, queueStep, enqueuedOf, List.cons_append, List.nil_append]
        exact congrArg (j :: ·) h

/-- C3: across any trace of enqueues interleaved with dequeues by the single
consumer, the enqueued sequence splits exactly into the dequeued sequence
followed by the jobs still waiting: jobs come out in exactly the order they
went in, none reordered, duplicated or dropped, and dequeue is the only
operation that removes a job. -/
theorem queue_fifo (ops : List QueueOp) :
    enqueuedOf ops = (queueRun [] ops).2 ++ (queueRun [] ops).1 := by
  simpa using queueRun_fifo_aux ops []

/-- C8: `enqueue` appends the job at the tail and returns the 1-based position
the job now occupies, which is the number of jobs in the queue after the
insertion. -/
theorem enqueue_position (items : List DownloadJob) (j : DownloadJob) :
    (enqueue items j).1 = items ++ [j] ∧
    (enqueue items j).2 = items.length + 1 ∧
    (enqueue items j).2 = (enqueue items j).1.length ∧
    (enqueue items j).1.getLast? = some j := by
  refine ⟨rfl, by simp [enqueue], by simp [enqueue], ?_⟩
  simp [enqueue]

theorem dictGet_remove {α : Type} (m : List (String × α)) (k : String) :
    dictGet (dictRemove m k) k = none := by
  induction m with
  | nil => rfl
  | cons hd tl ih =>
    by_cases h : hd.1 = k
    · simp [dictRemove, dictGet, h]
    · simp [dictRemove, dictGet, h]

theorem pop_absent (st : InMemoryState) (now : ℚ) (token : String)
    (h : dictGet st.pending token = none) : (st.pop now token).1 = none := by
  simp [InMemoryState.pop, h]

theorem pop_leaves_token_absent (st : InMemoryState) (now : ℚ) (token : String) :
    dictGet (st.pop now token).2.pending token = none ∨
      (st.pop now token).2 = st ∧ dictGet st.pending token = none := by
  unfold InMemoryState.pop
  cases hfind : dictGet st.pending token with
  | none => exact Or.inr ⟨rfl, rfl⟩
  | some p =>
    by_cases hexp : now - p.created_at > st.ttl_sec
    · simp only [hexp, if_pos]
      exact Or.inl (dictGet_remove _ _)
    · simp only [hexp, if_neg, not_false_eq_true]
      exact Or.inl (dictGet_remove _ _)

/-- C4: lazy expiry and take-twice.  (a) For an entry whose age `now -
created_at` exceeds the TTL, both `get` and `pop` return absent and remove the
entry from the store, regardless of whether the token was ever accessed
before; (b) for every token and any two lookup times, `pop` followed by `pop`
yields absent the second time. -/
theorem state_lazy_expiry :
    (∀ (st : InMemoryState) (now : ℚ) (token : String) (p : PendingSelection),
      dictGet st.pending token = some p →
      now - p.created_at > st.ttl_sec →
        (st.get now token).1 = none ∧
        dictGet (st.get now token).2.pending token = none ∧
        (st.pop now token).1 = none ∧
        dictGet (st.pop now token).2.pending token = none) ∧
    (∀ (st : InMemoryState) (now1 now2 : ℚ) (token : String),
      (((st.pop now1 token).2).pop now2 token).1 = none) := by
  constructor
  · intro st now token p hfind hexp
    refine ⟨?_, ?_, ?_, ?_⟩ <;>
      simp [InMemoryState.get, InMemoryState.pop, hfind, hexp, dictGet_remove]
  · intro st now1 now2 token
    rcases pop_leaves_token_absent st now1 token with habs | ⟨heq, habs⟩
    · exact pop_absent _ now2 token habs
    · rw [heq]; exact pop_absent _ now2 token habs

theorem downloadingUpdate_last_percent (s : HookState) (e : RawEvent) :
    (downloadingUpdate s e).last_percent = s.last_percent := rfl

theorem downloadingUpdate_announced (s : HookState) (e : RawEvent) :
    (downloadingUpdate s e).processing_announced = s.processing_announced := rfl

theorem emit_processing_percents (s : HookState) :
    downloadPercents (emit_processing s).2 = [] ∧
    (emit_processing s).1.last_percent = s.last_percent := by
  unfold emit_processing
  split <;> simp [downloadPercents]

theorem emit_download_percent_cases (s : HookState) (p : ℚ) :
    ((emit_download_percent s p).2 = [] ∧ (emit_download_percent s p).1 = s) ∨
    ((emit_download_percent s p).2
        = [Emit.download (emit_download_percent s p).1.last_percent] ∧
      (emit_download_percent s p).1.last_percent ≠ s.last_percent ∧
      (emit_download_percent s p).1.processing_announced = s.processing_announced) := by
  unfold emit_download_percent
  dsimp only
  split
  · exact Or.inl ⟨rfl, rfl⟩
  · next h => exact Or.inr ⟨rfl, h, rfl⟩

/-- Shape of one `hook` step as seen through the download percents: either no
download emission and `last_percent` untouched, or exactly one download
emission carrying the new, different `last_percent`. -/
theorem hook_percents_step (s : HookState) (e : RawEvent) :
    (downloadPercents (hook s e).2 = [] ∧ (hook s e).1.last_percent = s.last_percent) ∨
    (downloadPercents (hook s e).2 = [(hook s e).1.last_percent] ∧
      (hook s e).1.last_percent ≠ s.last_percent) := by
  unfold hook
  by_cases h1 : e.status = "postprocessing" ∨ e.status = "processing"
  · rw [if_pos h1]
    exact Or.inl (emit_processing_percents s)
  · rw [if_neg h1]
    by_cases h2 : e.status = "finished"
    · rw [if_pos h2]
      cases hrt : rawTotal e with
      | none => exact Or.inl ⟨rfl, rfl⟩
      | some t =>
        dsimp only
        by_cases h3 : t > 0
        · rw [if_pos h3]; exact Or.inl ⟨rfl, rfl⟩
        · rw [if_neg h3]; exact Or.inl ⟨rfl, rfl⟩
    · rw [if_neg h2]
      by_cases h4 : e.status ≠ "downloading"
      · rw [if_pos h4]; exact Or.inl ⟨rfl, rfl⟩
      · rw [if_neg h4]
        unfold hookDownloading
        dsimp only
        split
        · rcases emit_download_percent_cases (downloadingUpdate s e)
              (100 * ((((downloadingUpdate s e).file_total.filter
                  (fun kt => !decide (kt.2 ≤ 0))).map
                (fun kt =>
                  let d0 := (dictGet (downloadingUpdate s e).file_downloaded kt.1).getD 0
                  let d1 := if d0 < 0 then 0 else d0
                  if d1 > kt.2 then kt.2 else d1)).sum) /
                (((downloadingUpdate s e).file_total.map (·.2)).filter
                  (fun t => decide (t > 0))).sum) with
            ⟨ha, hb⟩ | ⟨ha, hb, _⟩
          · exact Or.inl ⟨by rw [ha]; rfl,
              by rw [hb, downloadingUpdate_last_percent]⟩
          · exact Or.inr ⟨by rw [ha]; rfl,
              by rw [downloadingUpdate_last_percent] at hb; exact hb⟩
        · cases e.percent_str with
          | none => exact Or.inl ⟨rfl, rfl⟩
          | some p =>
            dsimp only
            split
            · exact Or.inl ⟨rfl, rfl⟩
            · rcases emit_download_percent_cases (downloadingUpdate s e) p with
                ⟨ha, hb⟩ | ⟨ha, hb, _⟩
              · exact Or.inl ⟨by rw [ha]; rfl,
                  by rw [hb, downloadingUpdate_last_percent]⟩
              · exact Or.inr ⟨by rw [ha]; rfl,
                  by rw [downloadingUpdate_last_percent] at hb; exact hb⟩

theorem downloadPercents_append (a b : List Emit) :
    downloadPercents (a ++ b) = downloadPercents a ++ downloadPercents b :=
  List.filterMap_append a b _

/-- Invariant: prefixing the current `last_percent` to the download percents a
run emits gives a list with no two adjacent entries equal. -/
theorem hookRunFrom_chain (evs : List RawEvent) :
    ∀ s : HookState,
      List.Chain' (· ≠ ·) (s.last_percent :: downloadPercents (hookRunFrom s evs).2) := by
  induction evs with
  | nil => intro s; simp [hookRunFrom, downloadPercents]
  | cons e evs ih =>
    intro s
    have hrest := ih (hook s e).1
    show List.Chain' (· ≠ ·)
      (s.last_percent :: downloadPercents ((hook s e).2 ++ (hookRunFrom (hook s e).1 evs).2))
    rw [downloadPercents_append]
    rcases hook_percents_step s e with ⟨h0, h1⟩ | ⟨h0, h1⟩
    · rw [h0, List.nil_append, ← h1]
      exact hrest
    · rw [h0, List.cons_append, List.nil_append, List.chain'_cons]
      exact ⟨Ne.symm h1, hrest⟩

/-- C1 (amended): the emitted integer download percents of a job are
coalesced — no emission repeats the previously emitted integer percent — and
the very first emission is never suppressed (the emitter always fires while
`last_percent` is still the initial `-1`).  Monotonicity, however, does not
hold in the known-totals path (see the counterexample theorem). -/
theorem aggregator_coalesced :
    (∀ evs : List RawEvent,
      List.Chain' (· ≠ ·) (downloadPercents (hookEmits evs))) ∧
    (∀ p : ℚ, (emit_download_percent initHookState p).2
        = [Emit.download (pyInt (max 0 (min 100 p)))]) := by
  constructor
  · intro evs
    exact (hookRunFrom_chain evs initHookState).tail
  · intro p
    have h0 : (0 : ℚ) ≤ max 0 (min 100 p) := le_max_left _ _
    have hnn : 0 ≤ pyInt (max 0 (min 100 p)) := by
      unfold pyInt
      rw [if_pos h0]
      exact Int.floor_nonneg.mpr h0
    unfold emit_download_percent
    dsimp only
    rw [if_neg]
    intro hEq
    rw [show initHookState.last_percent = -1 from rfl] at hEq
    omega

/-- C1 (counterexample): with one stream at `(downloaded=50, total=100)` a
50% emission happens; a second stream then reporting `(downloaded=0,
total=200)` recomputes the aggregate to 16%, which is emitted rather than
suppressed — the emitted sequence `[50, 16]` is neither strictly increasing
nor non-decreasing. -/
theorem aggregator_regression_counterexample :
    hookEmits [evDownloading "a" 50 100, evDownloading "b" 0 200]
      = [Emit.download 50, Emit.download 16] ∧
    ¬ List.Chain' (· ≤ ·) (downloadPercents
        (hookEmits [evDownloading "a" 50 100, evDownloading "b" 0 200])) := by
  constructor
  · with_unfolding_all rfl
  · rw [show downloadPercents
        (hookEmits [evDownloading "a" 50 100, evDownloading "b" 0 200])
        = [50, 16] from by with_unfolding_all rfl]
    intro hch
    have h50 : (50 : Int) ≤ 16 := (List.chain'_cons.mp hch).1
    omega

theorem emit_download_percent_processing (s : HookState) (p : ℚ) :
    (emit_download_percent s p).2.count Emit.processing = 0 ∧
    (emit_download_percent s p).1.processing_announced = s.processing_announced := by
  unfold emit_download_percent
  dsimp only
  split
  · simp
  · simp [List.count_cons]

theorem hookDownloading_processing (s : HookState) (e : RawEvent) :
    (hookDownloading s e).2.count Emit.processing = 0 ∧
    (hookDownloading s e).1.processing_announced = s.processing_announced := by
  unfold hookDownloading
  dsimp only
  split
  · exact ⟨(emit_download_percent_processing _ _).1,
      (emit_download_percent_processing _ _).2.trans (downloadingUpdate_announced s e)⟩
  · cases e.percent_str with
    | none => exact ⟨rfl, rfl⟩
    | some p =>
      dsimp only
      split
      · exact ⟨rfl, rfl⟩
      · exact ⟨(emit_download_percent_processing _ _).1,
          (emit_download_percent_processing _ _).2.trans (downloadingUpdate_announced s e)⟩

/-- Shape of one `hook` step as seen through the processing latch. -/
theorem hook_processing_step (s : HookState) (e : RawEvent) :
    (isProcessingEvent e = false →
      (hook s e).2.count Emit.processing = 0 ∧
      (hook s e).1.processing_announced = s.processing_announced) ∧
    (isProcessingEvent e = true →
      (s.processing_announced = false →
        (hook s e).2 = [Emit.processing] ∧
        (hook s e).1.processing_announced = true) ∧
      (s.processing_announced = true → hook s e = (s, []))) := by
  have hiff : (e.status = "postprocessing" ∨ e.status = "processing")
      ↔ isProcessingEvent e = true := by
    simp [isProcessingEvent]
  constructor
  · intro hf
    have h1 : ¬ (e.status = "postprocessing" ∨ e.status = "processing") := by
      rw [hiff, hf]; simp
    unfold hook
    rw [if_neg h1]
    by_cases h2 : e.status = "finished"
    · rw [if_pos h2]
      cases hrt : rawTotal e with
      | none => exact ⟨rfl, rfl⟩
      | some t =>
        dsimp only
        by_cases h3 : t > 0
        · rw [if_pos h3]; exact ⟨rfl, rfl⟩
        · rw [if_neg h3]; exact ⟨rfl, rfl⟩
    · rw [if_neg h2]
      by_cases h4 : e.status ≠ "downloading"
      · rw [if_pos h4]; exact ⟨rfl, rfl⟩
      · rw [if_neg h4]; exact hookDownloading_processing s e
  · intro ht
    have h1 : e.status = "postprocessing" ∨ e.status = "processing" := hiff.mpr ht
    unfold hook
    rw [if_pos h1]
    unfold emit_processing
    constructor
    · intro hna; rw [hna]; simp
    · intro ha; rw [ha]; simp

/-- Invariant: the number of processing notifications a run emits is 1 when
the latch is still open and a processing event occurs, else 0; the latch ends
up set iff it was set or a processing event occurred. -/
theorem hookRunFrom_processing_count (evs : List RawEvent) :
    ∀ s : HookState,
      (hookRunFrom s evs).2.count Emit.processing
        = (if s.processing_announced then 0
           else if evs.any isProcessingEvent then 1 else 0) ∧
      (hookRunFrom s evs).1.processing_announced
        = (s.processing_announced || evs.any isProcessingEvent) := by
  induction evs with
  | nil => intro s; cases hb : s.processing_announced <;> simp [hookRunFrom, hb]
  | cons e evs ih =>
    intro s
    have hstep := hook_processing_step s e
    have ihn := ih (hook s e).1
    show ((hook s e).2 ++ (hookRunFrom (hook s e).1 evs).2).count Emit.processing = _ ∧
      (hookRunFrom (hook s e).1 evs).1.processing_announced = _
    rw [List.count_append]
    cases hpe : isProcessingEvent e with
    | false =>
      obtain ⟨hc, hann⟩ := hstep.1 hpe
      refine ⟨?_, ?_⟩
      · rw [hc, ihn.1, hann, Nat.zero_add]
        simp [List.any_cons, hpe]
      · rw [ihn.2, hann]
        simp [List.any_cons, hpe]
    | true =>
      cases hann : s.processing_announced with
      | false =>
        obtain ⟨hemit, hann2⟩ := (hstep.2 hpe).1 hann
        refine ⟨?_, ?_⟩
        · rw [hemit, ihn.1, hann2]
          simp [List.any_cons, hpe, hann, List.count_cons]
        · rw [ihn.2, hann2]
          simp [List.any_cons, hpe]
      | true =>
        have heq := (hstep.2 hpe).2 hann
        have h1 : (hook s e).1 = s := by rw [heq]
        have h2 : (hook s e).2 = [] := by rw [heq]
        rw [h1] at ihn
        refine ⟨?_, ?_⟩
        · rw [h2, h1, ihn.1]
          simp [hann]
        · rw [h1, ihn.2, hann]
          simp

/-- C7: the "processing" status is latched exactly once per job.  (a) A run
emits exactly one processing notification when some raw event has a
processing/postprocessing status and none otherwise; (b) the first such event
(after any prefix free of them) emits exactly the phase-only notification and
sets the latch; (c) once the latch is set, a processing-status event emits
nothing and leaves the state unchanged. -/
theorem processing_latched_once :
    (∀ evs : List RawEvent,
      (hookEmits evs).count Emit.processing
        = if evs.any isProcessingEvent then 1 else 0) ∧
    (∀ (pre : List RawEvent) (e : RawEvent),
      pre.any isProcessingEvent = false → isProcessingEvent e = true →
      (hook (hookRunFrom initHookState pre).1 e).2 = [Emit.processing] ∧
      (hook (hookRunFrom initHookState pre).1 e).1.processing_announced = true) ∧
    (∀ (s : HookState) (e : RawEvent),
      s.processing_announced = true → isProcessingEvent e = true →
      hook s e = (s, [])) := by
  refine ⟨?_, ?_, ?_⟩
  · intro evs
    have h := (hookRunFrom_processing_count evs initHookState).1
    simpa [initHookState] using h
  · intro pre e hpre hpe
    have hann : (hookRunFrom initHookState pre).1.processing_announced = false := by
      rw [(hookRunFrom_processing_count pre initHookState).2]
      simp [initHookState, hpre]
    exact (hook_processing_step _ e).2 hpe |>.1 hann
  · intro s e hann hpe
    exact ((hook_processing_step s e).2 hpe).2 hann

/-- Witness for `processing_latched_once`: a job whose first raw event is a
processing event emits the phase notification there, and a second processing
event on the latched state emits nothing. -/
theorem processing_latched_once_witness :
    (hook (hookRunFrom initHookState []).1 ⟨"processing", none, none, none, none, none⟩).2
      = [Emit.processing] ∧
    hook ⟨-1, true, [], []⟩ ⟨"processing", none, none, none, none, none⟩
      = (⟨-1, true, [], []⟩, []) := by
  constructor
  · exact (processing_latched_once.2.1 [] ⟨"processing", none, none, none, none, none⟩
      rfl (by decide)).1
  · exact processing_latched_once.2.2 ⟨-1, true, [], []⟩
      ⟨"processing", none, none, none, none, none⟩ rfl (by decide)

theorem dictGet_set {α : Type} (m : List (String × α)) (k : String) (v : α) :
    dictGet (dictSet m k v) k = some v := by
  induction m with
  | nil => simp [dictSet, dictGet]
  | cons hd tl ih =>
    by_cases h : hd.1 = k
    · simp [dictSet, dictGet, h]
    · by_cases h2 : tl.any (fun p => p.1 == k)
      · simp [dictSet, dictGet, h, h2] at ih ⊢
        exact ih
      · simp [dictSet, dictGet, h, h2] at ih ⊢
        exact ih

/-- The source's two-step clamp of a downloaded count into `[0, total]`
agrees with `max 0 (min d t)` when the total is positive. -/
theorem clamp_eq (d t : ℚ) (ht : 0 < t) :
    (if (if d < 0 then 0 else d) > t then t else if d < 0 then 0 else d)
      = max 0 (min d t) := by
  by_cases hd : d < 0
  · rw [if_pos hd]
    rw [if_neg (by simpa using ht.le : ¬ (0 : ℚ) > t)]
    rw [min_eq_left (by linarith), max_eq_left (by linarith)]
  · rw [if_neg hd]
    by_cases hdt : d > t
    · rw [if_pos hdt]
      rw [min_eq_right (le_of_lt hdt), max_eq_right (le_of_lt ht)]
    · rw [if_neg hdt]
      rw [min_eq_left (not_lt.mp hdt), max_eq_right (not_lt.mp hd)]

/-- On a downloading event whose updated state has at least one known total,
the hook's aggregation equals the spec's clamped-sum formula. -/
theorem hookDownloading_formula (s : HookState) (e : RawEvent)
    (h : ((downloadingUpdate s e).file_total.map (·.2)).filter
        (fun t => decide (t > 0)) ≠ []) :
    hookDownloading s e
      = emit_download_percent (downloadingUpdate s e)
          (specAggregatePercent (downloadingUpdate s e)) := by
  unfold hookDownloading
  dsimp only
  rw [if_pos h]
  have hfil : (downloadingUpdate s e).file_total.filter (fun kt => !decide (kt.2 ≤ 0))
      = (downloadingUpdate s e).file_total.filter (fun kt => decide (0 < kt.2)) := by
    apply List.filter_congr
    intro a _
    rw [← decide_not, decide_eq_decide]
    exact not_le
  have hden : ((downloadingUpdate s e).file_total.map (·.2)).filter
        (fun t => decide (t > 0))
      = ((downloadingUpdate s e).file_total.filter (fun kt => decide (0 < kt.2))).map (·.2) := by
    rw [List.filter_map]
    congr 1
  have hnum : ((downloadingUpdate s e).file_total.filter
        (fun kt => !decide (kt.2 ≤ 0))).map
        (fun kt =>
          let d0 := (dictGet (downloadingUpdate s e).file_downloaded kt.1).getD 0
          let d1 := if d0 < 0 then 0 else d0
          if d1 > kt.2 then kt.2 else d1)
      = ((downloadingUpdate s e).file_total.filter (fun kt => decide (0 < kt.2))).map
        (fun kt =>
          max 0 (min ((dictGet (downloadingUpdate s e).file_downloaded kt.1).getD 0) kt.2)) := by
    rw [hfil]
    apply List.map_congr_left
    intro a ha
    have hpos : 0 < a.2 := by
      have := (List.mem_filter.mp ha).2
      simpa using this
    exact clamp_eq _ _ hpos
  unfold specAggregatePercent
  dsimp only
  rw [hnum, hden]

/-- C2: the aggregate-percent computation.  (a) On a `"downloading"` event
whose post-update state has a stream with known total, the hook emits through
`_emit_download_percent` exactly the spec formula 100 × (sum of clamped
downloaded bytes over streams with known totals) / (sum of those totals);
(b) a `"finished"` event with a known positive total records downloaded =
total for that stream; (c) concretely, streams reporting (50, 100) then
(0, 200) yield the 16% emission (100×50/300 truncated), and after both
streams reach their totals the aggregate is 100%. -/
theorem aggregate_percent_formula :
    (∀ (s : HookState) (e : RawEvent),
      e.status = "downloading" →
      ((downloadingUpdate s e).file_total.map (·.2)).filter
          (fun t => decide (t > 0)) ≠ [] →
      hook s e = emit_download_percent (downloadingUpdate s e)
        (specAggregatePercent (downloadingUpdate s e))) ∧
    (∀ (s : HookState) (e : RawEvent) (t : ℚ),
      e.status = "finished" → rawTotal e = some t → 0 < t →
      dictGet (hook s e).1.file_downloaded (eventKey e) = some t ∧
      dictGet (hook s e).1.file_total (eventKey e) = some t) ∧
    hookEmits [evDownloading "a" 50 100, evDownloading "b" 0 200,
        evDownloading "b" 200 200, evDownloading "a" 100 100]
      = [Emit.download 50, Emit.download 16, Emit.download 83, Emit.download 100] := by
  refine ⟨?_, ?_, ?_⟩
  · intro s e hst htot
    unfold hook
    rw [if_neg (by rw [hst]; simp), if_neg (by rw [hst]; simp),
      if_neg (by rw [hst]; simp)]
    exact hookDownloading_formula s e htot
  · intro s e t hst hrt hpos
    unfold hook
    rw [if_neg (by rw [hst]; simp), if_pos hst, hrt]
    dsimp only
    rw [if_pos hpos]
    exact ⟨dictGet_set _ _ _, dictGet_set _ _ _⟩
  · with_unfolding_all rfl

/-- Witness for `aggregate_percent_formula`: the formula applies to the
two-stream example's first event, and a finished event for a 100-byte stream
saturates its entry. -/
theorem aggregate_percent_formula_witness :
    hook initHookState (evDownloading "a" 50 100)
      = emit_download_percent (downloadingUpdate initHookState (evDownloading "a" 50 100))
          (specAggregatePercent (downloadingUpdate initHookState (evDownloading "a" 50 100))) ∧
    dictGet (hook initHookState
        ⟨"finished", some "a", none, some 100, none, none⟩).1.file_downloaded
        (eventKey ⟨"finished", some "a", none, some 100, none, none⟩) = some 100 := by
  constructor
  · refine aggregate_percent_formula.1 initHookState (evDownloading "a" 50 100) rfl ?_
    rw [show ((downloadingUpdate initHookState (evDownloading "a" 50 100)).file_total.map
        (·.2)).filter (fun t => decide (t > 0)) = [100] from by with_unfolding_all rfl]
    simp
  · exact (aggregate_percent_formula.2.1 initHookState
      ⟨"finished", some "a", none, some 100, none, none⟩ 100 rfl
      (by with_unfolding_all rfl) (by norm_num)).1

/-- C6: when the wait for the next event times out in the download phase with
a positive last-known percent and the minimum render interval elapsed, the
stall message shows exactly the last-known percent with an elapsed-time
annotation computed from `last_progress_time` — the time of the last real
progress render, not the time of the last render (`last_sent_time` is
arbitrary here) — and neither the last-known percent nor the last-progress
timestamp regresses. -/
theorem stall_render_elapsed (s : ReporterState) (min_interval now : ℚ)
    (hphase : s.phase = "download") (hpos : 0 < s.last_seen_percent)
    (hmin : min_interval ≤ now - s.last_sent_time) :
    (reporterStep min_interval s (.timeout now)).2
      = some ("Downloading... " ++ toString s.last_seen_percent
          ++ "% (no progress for "
          ++ fmtStall (pyInt (now - s.last_progress_time)) ++ ")") ∧
    (reporterStep min_interval s (.timeout now)).1.last_seen_percent
      = s.last_seen_percent ∧
    (reporterStep min_interval s (.timeout now)).1.last_progress_time
      = s.last_progress_time := by
  unfold reporterStep
  dsimp only
  rw [if_neg (not_lt.mpr hmin)]
  rw [if_neg (by rw [hphase]; simp), if_neg (not_le.mpr hpos)]
  exact ⟨rfl, rfl, rfl⟩

/-- Witness for `stall_render_elapsed`: last-known percent 42, last real
progress at t=30, a stall render already sent at t=90, timeout at t=100 with
min interval 5 — the text includes "42%" and annotates 1:10 elapsed since the
real progress at t=30 (not 0:10 since the render at t=90). -/
theorem stall_render_elapsed_witness :
    (reporterStep 5 ⟨10, 90, "download", 30, 42⟩ (.timeout 100)).2
      = some "Downloading... 42% (no progress for 1:10)" := by
  have h := stall_render_elapsed ⟨10, 90, "download", 30, 42⟩ 5 100 rfl
    (by norm_num) (by norm_num)
  rw [h.1]
  with_unfolding_all rfl

/-- C5 (counterexample): `job_success = True` is assigned before the raw
final "Done." edit; when that edit raises an ordinary exception (all earlier
steps having succeeded), the handler renders the generic cannot-download
message — a non-cancellation job exception — yet the `finally` still runs
cleanup, so cleanup is not "skipped entirely on any job exception". -/
theorem cleanup_skipped_counterexample :
    (workerJobRun .ok .ok (.ok true) .ok .ok .exc "http://x/a").final_message
        = some (cannotDownloadText "http://x/a") ∧
    (workerJobRun .ok .ok (.ok true) .ok .ok .exc "http://x/a").reraised = false ∧
    (workerJobRun .ok .ok (.ok true) .ok .ok .exc "http://x/a").cleanup_invoked
        = true :=
  ⟨rfl, rfl, rfl⟩

/-- C5 (amended): cleanup is gated by the `job_success` flag, not by how the
body exited.  (a) Cleanup runs iff `job_success` was set and a session
directory exists; (b) `job_success` is set iff the starting edit, session-dir
creation, acquisition (with a non-empty file list) and delivery all
succeeded — independently of the final "Done." edit, which comes after the
assignment; (c) a resolved directory outside the download root is refused,
whatever the filesystem's removal would do; (d) a resolved directory whose
name does not start with `session-` is refused likewise; (e) on a
non-cancellation exception raised while `job_success` is still unset,
cleanup is skipped and the generic cannot-download message is rendered. -/
theorem cleanup_gated_by_success_flag :
    (∀ (se ed : StepResult) (aq : AcquireResult) (ne de dn : StepResult)
        (url : String),
      (workerJobRun se ed aq ne de dn url).cleanup_invoked = true
        ↔ ((workerJobRun se ed aq ne de dn url).job_success = true ∧
           (workerJobRun se ed aq ne de dn url).session_dir_set = true)) ∧
    (∀ (se ed : StepResult) (aq : AcquireResult) (ne de dn : StepResult)
        (url : String),
      (workerJobRun se ed aq ne de dn url).job_success = true
        ↔ (se = .ok ∧ ed = .ok ∧ aq = .ok true ∧ de = .ok)) ∧
    (∀ (resolve : PyPath → PyPath) (rmtree : PyPath → Except PyErr Unit)
        (sd root : PyPath),
      isRelativeTo (resolve sd) (resolve root) = false →
      cleanupSessionDir resolve rmtree sd root = .refusedOutsideRoot) ∧
    (∀ (resolve : PyPath → PyPath) (rmtree : PyPath → Except PyErr Unit)
        (sd root : PyPath),
      isRelativeTo (resolve sd) (resolve root) = true →
      (pathName (resolve sd)).startsWith "session-" = false →
      cleanupSessionDir resolve rmtree sd root = .refusedNonSession) ∧
    (∀ (se ed : StepResult) (aq : AcquireResult) (ne de dn : StepResult)
        (url : String),
      (workerTryBody se ed aq ne de dn).2.2.2 = .raisedExc →
      (workerTryBody se ed aq ne de dn).1 = false →
      (workerJobRun se ed aq ne de dn url).cleanup_invoked = false ∧
      (workerJobRun se ed aq ne de dn url).final_message
        = some (cannotDownloadText url) ∧
      (workerJobRun se ed aq ne de dn url).reraised = false) := by
  refine ⟨?_, ?_, ?_, ?_, ?_⟩
  · intro se ed aq ne de dn url
    unfold workerJobRun
    dsimp only
    cases h : (workerTryBody se ed aq ne de dn).2.2.2 <;>
      simp [Bool.and_eq_true]
  · intro se ed aq ne de dn url
    have hjs : (workerJobRun se ed aq ne de dn url).job_success
        = (workerTryBody se ed aq ne de dn).1 := by
      unfold workerJobRun
      dsimp only
      cases h : (workerTryBody se ed aq ne de dn).2.2.2 <;> rfl
    rw [hjs]
    cases se <;> cases ed <;> rcases aq with fnm | - | - <;> cases ne <;>
      cases de <;> cases dn <;>
      first
        | (cases fnm <;> simp [workerTryBody])
        | simp [workerTryBody]
  · intro resolve rmtree sd root h
    unfold cleanupSessionDir cleanupSessionDirRun cleanupBody
    rw [if_pos (by rw [h]; simp)]
  · intro resolve rmtree sd root h1 h2
    unfold cleanupSessionDir cleanupSessionDirRun cleanupBody
    rw [if_neg (by rw [h1]; simp), if_pos (by rw [h2]; simp)]
  · intro se ed aq ne de dn url hexit hjs
    unfold workerJobRun
    dsimp only
    rw [hexit]
    simp [hjs]

/-- Witness for `cleanup_gated_by_success_flag`: an acquisition failure (an
exception before `job_success` is set) skips cleanup and shows the generic
message; a resolved path outside the root is refused even when removal would
have succeeded; a wrongly named directory inside the root is refused too. -/
theorem cleanup_gated_by_success_flag_witness :
    (workerJobRun .ok .ok .exc .ok .ok .ok "http://x/a").cleanup_invoked = false ∧
    (workerJobRun .ok .ok .exc .ok .ok .ok "http://x/a").final_message
        = some (cannotDownloadText "http://x/a") ∧
    cleanupSessionDir (fun p => p) (fun _ => .ok ())
        ⟨["tmp", "evil"]⟩ ⟨["tmp", "downloads"]⟩ = .refusedOutsideRoot ∧
    cleanupSessionDir (fun p => p) (fun _ => .ok ())
        ⟨["tmp", "downloads", "other"]⟩ ⟨["tmp", "downloads"]⟩
      = .refusedNonSession := by
  have h5 := cleanup_gated_by_success_flag.2.2.2.2
    .ok .ok .exc .ok .ok .ok "http://x/a" rfl rfl
  refine ⟨h5.1, h5.2.1, ?_, ?_⟩
  · exact cleanup_gated_by_success_flag.2.2.1 (fun p => p) (fun _ => .ok ())
      ⟨["tmp", "evil"]⟩ ⟨["tmp", "downloads"]⟩ (by decide)
  · exact cleanup_gated_by_success_flag.2.2.2.1 (fun p => p) (fun _ => .ok ())
      ⟨["tmp", "downloads", "other"]⟩ ⟨["tmp", "downloads"]⟩ (by decide) (by decide)

/-- C10: `_cleanup_session_dir` is total and never raises — for every
filesystem behaviour it returns normally with one of the five outcomes
(delete, already-gone, two refusals, logged failure) — and a fully successful
job ends with the "Done." message, cleanup run, and no re-raise; since the
run takes no filesystem oracle, no cleanup failure can change that outcome or
terminate the loop. -/
theorem cleanup_never_raises :
    (∀ (resolve : PyPath → PyPath) (rmtree : PyPath → Except PyErr Unit)
        (sd root : PyPath),
      (cleanupSessionDirRun resolve rmtree sd root).isOk = true ∧
      cleanupSessionDirRun resolve rmtree sd root
        = .ok (cleanupSessionDir resolve rmtree sd root)) ∧
    (∀ url : String,
      workerJobRun .ok .ok (.ok true) .ok .ok .ok url
        = ⟨true, true, some "Done.", true, false⟩) := by
  constructor
  · intro resolve rmtree sd root
    unfold cleanupSessionDir cleanupSessionDirRun
    cases h : cleanupBody resolve rmtree sd root with
    | ok a => exact ⟨rfl, rfl⟩
    | error err => cases err <;> exact ⟨rfl, rfl⟩
  · intro url
    rfl

/-- C9: only the owning user may mutate a pending selection — a callback
whose originating user id differs from the stored `user_id`, or whose chat id
differs from the stored `chat_id`, fails the owner validation, and any
callback failing it leaves the selection unchanged whatever its action. -/
theorem owner_validation_rejects :
    (∀ (q : CallbackQuery) (pending : PendingSelection) (u : CallbackUser),
      q.from_user = some u → u.id ≠ pending.user_id →
      validate_selection_owner (some q) pending = false) ∧
    (∀ (q : CallbackQuery) (pending : PendingSelection) (m : CallbackMessage),
      q.message = some m → m.chat_id ≠ pending.chat_id →
      validate_selection_owner (some q) pending = false) ∧
    (∀ (q : CallbackQuery) (pending : PendingSelection) (a : PlaylistAction),
      validate_selection_owner (some q) pending = false →
      onPlaylistCallbackSelection q pending a = pending) := by
  refine ⟨?_, ?_, ?_⟩
  · intro q pending u hu hne
    unfold validate_selection_owner
    dsimp only
    rw [hu]
    simp [hne]
  · intro q pending m hm hne
    unfold validate_selection_owner
    dsimp only
    rw [hm]
    cases hfu : q.from_user with
    | none => simp [hne]
    | some u =>
      by_cases hid : u.id ≠ pending.user_id
      · simp [hid]
      · simp [hid, hne]
  · intro q pending a hval
    unfold onPlaylistCallbackSelection
    rw [hval]
    simp

/-- Witness for `owner_validation_rejects`: a click by user 99 on a selection
owned by user 2 in chat 1 is rejected and toggling index 3 changes nothing. -/
theorem owner_validation_rejects_witness :
    validate_selection_owner
        (some ⟨some ⟨99⟩, some ⟨1⟩⟩)
        ⟨1, 2, "u", [], [], [], none, 0⟩ = false ∧
    onPlaylistCallbackSelection ⟨some ⟨99⟩, some ⟨1⟩⟩
        ⟨1, 2, "u", [], [], [], none, 0⟩ (.toggle 3)
      = ⟨1, 2, "u", [], [], [], none, 0⟩ := by
  have hv : validate_selection_owner
      (some ⟨some ⟨99⟩, some ⟨1⟩⟩) ⟨1, 2, "u", [], [], [], none, 0⟩ = false :=
    owner_validation_rejects.1 ⟨some ⟨99⟩, some ⟨1⟩⟩
      ⟨1, 2, "u", [], [], [], none, 0⟩ ⟨99⟩ rfl (by decide)
  exact ⟨hv, owner_validation_rejects.2.2 ⟨some ⟨99⟩, some ⟨1⟩⟩
    ⟨1, 2, "u", [], [], [], none, 0⟩ (.toggle 3) hv⟩

end MediaFetcher
